import Mathlib

/-!
Verification development for the soprano NMR property engine.

The embedding covers, over exact rational arithmetic:
  * the EFG property extractors of `soprano/properties/nmr/efg.py`
    (`_has_efg_check`, `EFGTensor`, `EFGDiagonal`, `EFGVzz`, `EFGAsymmetry`,
    `EFGQuadrupolarConstant`, `EFGNQR`, `EFGQuadrupolarProduct`);
  * the trajectory branch of `AtomsProperty.get`
    (`soprano/properties/atomsproperty.py`);
  * `find_XHn_groups`, `get_duplicates`, `average_quaternions_by_tags`
    and the tag-group aggregation of `soprano/scripts/nmr.py`.

External numerics that the code calls but that are not part of this
repository (numpy's symmetric eigensolver, `np.sqrt`, the isotope data
tables, `NMRTensor.average`, `soprano.utils.average_quaternions`) are
abstracted as oracle parameters; helpers of this repository that are not
among the given sources (`_frange`, `_haeb_sort`, `_asymmetry`,
`_get_isotope_list`, `_get_isotope_data`, the pandas aggregation engine)
are modelled from the spec and marked as such.
-/

/-- Row-major 3-vector of rationals (a numpy length-3 float vector). -/
abbrev Vec3 : Type := ℚ × ℚ × ℚ

/-- A 3x3 rational matrix as a triple of rows (a numpy 3x3 float array). -/
abbrev Mat3 : Type := Vec3 × Vec3 × Vec3

/-- Transpose of a 3x3 matrix given by rows. -/
def Mat3.transpose (m : Mat3) : Mat3 :=
  (((m.1.1, m.2.1.1, m.2.2.1) : Vec3),
   ((m.1.2.1, m.2.1.2.1, m.2.2.2.1) : Vec3),
   ((m.1.2.2, m.2.1.2.2, m.2.2.2.2) : Vec3))

/-- Entrywise `(M + M^T) / 2`, the symmetrisation applied before
diagonalisation (`(efg + efg.T) / 2.0` in `EFGDiagonal.extract`). -/
def Mat3.symmetrize (m : Mat3) : Mat3 :=
  let t := m.transpose
  let av : ℚ → ℚ → ℚ := fun a b => (a + b) / 2
  (((av m.1.1 t.1.1, av m.1.2.1 t.1.2.1, av m.1.2.2 t.1.2.2) : Vec3),
   ((av m.2.1.1 t.2.1.1, av m.2.1.2.1 t.2.1.2.1, av m.2.1.2.2 t.2.1.2.2) : Vec3),
   ((av m.2.2.1 t.2.2.1, av m.2.2.2.1 t.2.2.2.1, av m.2.2.2.2 t.2.2.2.2) : Vec3))

/-- Oracle bundle for the external numerics and data tables used by
`soprano/properties/nmr/efg.py` but implemented outside this repository:
`eigh` stands for `np.linalg.eigh` (eigenvalue triple and eigenvector
matrix of a symmetric matrix), `rsqrt` for the floating `np.sqrt` / `** 0.5`,
`efgToChi` for the physical conversion constant `EFG_TO_CHI` of
`soprano.data.nmr`, and the remaining fields for the isotope data tables
(default NMR-active isotope, most abundant quadrupole-active isotope,
nuclear spin `I` and quadrupole moment `Q` per isotope). -/
structure Env where
  eigh : Mat3 → Vec3 × Mat3
  rsqrt : ℚ → ℚ
  efgToChi : ℚ
  defaultIso : String → ℕ
  qIso : String → Option ℕ
  spinTable : String → ℕ → ℚ
  quadTable : String → ℕ → ℚ

/-- The slice of an `ase.Atoms` object that the EFG extractors read and
write: chemical symbols, the raw named array `"efg"` and the three cache
arrays written by `EFGDiagonal` (`efg_diagonal_evals`,
`efg_diagonal_evals_hsort`, `efg_diagonal_evecs`).  A `none` field models
an absent named array (`s.has(...) == False`). -/
structure Atoms where
  symbols : List String
  efg : Option (List Mat3)
  efg_diagonal_evals : Option (List Vec3)
  efg_diagonal_evals_hsort : Option (List Vec3)
  efg_diagonal_evecs : Option (List Mat3)

def efgMissingMsg : String := "No electric field gradient data found for this system"

def invalidIsotopeListMsg : String := "WARNING - invalid isotope_list, ignoring"

/-- The `_has_efg_check` decorator of `efg.py`: raise a `RuntimeError`
naming the missing electric field gradient data when the structure has no
`"efg"` array, otherwise run the wrapped extraction on the structure. -/
def _has_efg_check {α : Type} (f : Atoms → Except String α) (s : Atoms) :
    Except String α :=
  if s.efg.isNone then .error efgMissingMsg else f s

/-- Stable ascending sort of three rationals by a key (ties keep the
input order), used by the Haeberlen reordering. -/
def sort3 (key : ℚ → ℚ) (a b c : ℚ) : ℚ × ℚ × ℚ :=
  let p := if key b < key a then (b, a) else (a, b)
  if key c < key p.2 then
    (if key c < key p.1 then (c, p.1, p.2) else (p.1, c, p.2))
  else (p.1, p.2, c)

/-- Modelled from the spec: `soprano.nmr.utils._haeb_sort` (absent from the
sources).  Haeberlen reordering of an eigenvalue triple: with
`iso = (v1+v2+v3)/3`, the result is labeled `(sxx, syy, szz)` such that
`|szz - iso| >= |sxx - iso| >= |syy - iso|`. -/
def _haeb_sort (v : Vec3) : Vec3 :=
  let iso := (v.1 + v.2.1 + v.2.2) / 3
  let p := sort3 (fun x => |x - iso|) v.1 v.2.1 v.2.2
  ((p.2.1, p.1, p.2.2) : Vec3)

/-- Modelled from the spec: `soprano.nmr.utils._asymmetry` (absent from
the sources) on a Haeberlen-sorted triple `(sxx, syy, szz)`:
`eta = (syy - sxx) / (szz - iso)`, defined as `0` when the denominator
is `0`. -/
def _asymmetry (v : Vec3) : ℚ :=
  let iso := (v.1 + v.2.1 + v.2.2) / 3
  if v.2.2 - iso = 0 then 0 else (v.2.1 - v.1) / (v.2.2 - iso)

/-- Modelled from the spec: `soprano.nmr.utils._frange` (absent from the
sources), the float enumeration `while x < y: yield x; x += jump`
specialised to `jump = 1` as used by `EFGNQR.extract`: the arithmetic
progression `x, x+1, ...` of all terms strictly below `y`. -/
def _frange (x y : ℚ) : List ℚ :=
  (List.range (Int.toNat ⌈y - x⌉)).map (fun (n : ℕ) => x + (n : ℚ))

/-- Python's `str` rendering of the numpy floats that appear as NQR
transition labels.  Exact for the integer and half-integer values that
nuclear spins produce (`0.5`, `1.0`, `-1.5`, ...); other rationals cannot
arise from half-integer spins. -/
def pyHalfStr (q : ℚ) : String :=
  if q.den = 1 then toString q.num ++ ".0"
  else if q.den = 2 then
    (if q.num < 0 then "-" else "") ++ toString (q.num.natAbs / 2) ++ ".5"
  else toString q.num ++ "/" ++ toString q.den

/-- Key of one NQR transition, `f'm={m}->{m+1}'` in `EFGNQR.extract`. -/
def nqrKey (m : ℚ) : String :=
  "m=" ++ pyHalfStr m ++ "->" ++ pyHalfStr (m + 1)

/-- Modelled from the spec: per-atom isotope resolution precedence of
`soprano.data.nmr._get_isotope_list` (absent from the sources), highest
to lowest: (1) explicit per-atom list entry when not `None`; (2) explicit
per-element override; (3) most abundant quadrupole-active isotope when
`use_q_isotopes` is set and one exists; (4) default most NMR-abundant
isotope of the element. -/
def resolveIsotope (env : Env) (isotopes : List (String × ℕ)) (use_q : Bool)
    (el : String) (entry : Option ℕ) : ℕ :=
  match entry with
  | some iso => iso
  | none =>
    match (isotopes.lookup el) with
    | some iso => iso
    | none =>
      if use_q then (env.qIso el).getD (env.defaultIso el)
      else env.defaultIso el

/-- Modelled from the spec: `soprano.data.nmr._get_isotope_list` (absent
from the sources): the per-atom resolved isotope mass numbers. -/
def _get_isotope_list (env : Env) (elems : List String)
    (isotopes : List (String × ℕ)) (isotope_list : Option (List (Option ℕ)))
    (use_q : Bool) : List ℕ :=
  match isotope_list with
  | none => elems.map (fun el => resolveIsotope env isotopes use_q el none)
  | some l => List.zipWith (fun el e => resolveIsotope env isotopes use_q el e) elems l

/-- Key selector for `_get_isotope_data`: nuclear spin `"I"` or
quadrupole moment `"Q"`. -/
inductive IsoKey where
  | I : IsoKey
  | Q : IsoKey
deriving DecidableEq

/-- Modelled from the spec: `soprano.data.nmr._get_isotope_data` (absent
from the sources): per-atom value of the requested isotope datum for the
resolved isotope of each atom. -/
def _get_isotope_data (env : Env) (key : IsoKey) (elems : List String)
    (isotopes : List (String × ℕ)) (isotope_list : Option (List (Option ℕ)))
    (use_q : Bool) : List ℚ :=
  List.zipWith
    (fun el iso => match key with
      | .I => env.spinTable el iso
      | .Q => env.quadTable el iso)
    elems (_get_isotope_list env elems isotopes isotope_list use_q)

/-- The isotope-list validity check repeated in `EFGTensor.extract`,
`EFGQuadrupolarConstant.extract`, `EFGNQR.extract` and
`EFGQuadrupolarProduct.extract`: a per-atom isotope list whose length
differs from the atom count is discarded (treated as `None`) with a
printed non-fatal warning. -/
def checkIsotopeList (elems : List String)
    (isotope_list : Option (List (Option ℕ))) :
    Option (List (Option ℕ)) × List String :=
  match isotope_list with
  | some l =>
    if l.length ≠ elems.length then (none, [invalidIsotopeListMsg])
    else (some l, [])
  | none => (none, [])

namespace EFGDiagonal

/-- The array-writing step of `EFGDiagonal.extract` with
`save_array=True`: diagonalise the symmetrised raw tensors through the
eigensolver and store `efg_diagonal_evals`, the Haeberlen-sorted
`efg_diagonal_evals_hsort` and `efg_diagonal_evecs` on the structure. -/
def store (env : Env) (s : Atoms) : Atoms :=
  let diag := (s.efg.getD []).map (fun m => env.eigh m.symmetrize)
  let evals := diag.map (fun d => d.1)
  { s with
    efg_diagonal_evals := some evals
    efg_diagonal_evals_hsort := some (evals.map _haeb_sort)
    efg_diagonal_evecs := some (diag.map (fun d => d.2)) }

/-- `EFGDiagonal.extract`: guarded by `_has_efg_check`; returns the
per-atom eigenvalue/eigenvector pairs and (with the default
`save_array=True`, as triggered by the other extractors through
`EFGDiagonal.get(s)`) the structure with the cache arrays written. -/
def extract (env : Env) (save_array : Bool) (s : Atoms) :
    Except String (Atoms × List (Vec3 × Mat3)) :=
  _has_efg_check (fun s =>
    let diag := (s.efg.getD []).map (fun m => env.eigh m.symmetrize)
    .ok (if save_array then store env s else s, diag)) s

/-- `EFGDiagonal.get(s)`: class-method dispatch on a single structure with
the default parameters (`save_array=True`). -/
def get (env : Env) (s : Atoms) : Except String (Atoms × List (Vec3 × Mat3)) :=
  extract env true s

end EFGDiagonal

/-- The cached Haeberlen-sorted eigenvalue triples
(`s.get_array("efg_diagonal_evals_hsort")`). -/
def Atoms.hsort (s : Atoms) : List Vec3 :=
  s.efg_diagonal_evals_hsort.getD []

namespace EFGVzz

/-- The value read by `EFGVzz.extract` once the cache is present:
`efg_evals[:, -1]`, the last component of each Haeberlen-sorted triple. -/
def values (s : Atoms) : List ℚ :=
  s.hsort.map (fun v => v.2.2)

/-- `EFGVzz.extract`: guarded by `_has_efg_check`; re-diagonalises through
`EFGDiagonal.get` when the Haeberlen-sorted cache is absent or
`force_recalc` is set, then returns the last Haeberlen component of each
triple. -/
def extract (env : Env) (force_recalc : Bool) (s : Atoms) :
    Except String (Atoms × List ℚ) :=
  _has_efg_check (fun s =>
    let s1 := if s.efg_diagonal_evals_hsort.isNone || force_recalc
              then EFGDiagonal.store env s else s
    .ok (s1, values s1)) s

/-- `EFGVzz.get(s)`: default parameters (`force_recalc=False`). -/
def get (env : Env) (s : Atoms) : Except String (Atoms × List ℚ) :=
  extract env false s

end EFGVzz

namespace EFGAsymmetry

/-- The value read by `EFGAsymmetry.extract` once the cache is present:
`_asymmetry` of each Haeberlen-sorted triple. -/
def values (s : Atoms) : List ℚ :=
  s.hsort.map _asymmetry

/-- `EFGAsymmetry.extract`: guarded by `_has_efg_check`; re-diagonalises
when needed, then returns the per-atom asymmetry. -/
def extract (env : Env) (force_recalc : Bool) (s : Atoms) :
    Except String (Atoms × List ℚ) :=
  _has_efg_check (fun s =>
    let s1 := if s.efg_diagonal_evals_hsort.isNone || force_recalc
              then EFGDiagonal.store env s else s
    .ok (s1, values s1)) s

/-- `EFGAsymmetry.get(s)`: default parameters (`force_recalc=False`). -/
def get (env : Env) (s : Atoms) : Except String (Atoms × List ℚ) :=
  extract env false s

end EFGAsymmetry

/-- The tensor object built by `EFGTensor.extract`,
`ElectricFieldGradient(efg, species, order=order)` of `soprano.nmr`
(external class): it stores the raw tensor, the species string and the
eigenvalue ordering convention. -/
structure EFGTensorObj where
  tensor : Mat3
  species : String
  order : String
deriving DecidableEq

namespace EFGTensor

/-- `EFGTensor.extract`: guarded by `_has_efg_check`; validates the
per-atom isotope list (discarding it with a warning on length mismatch),
resolves the isotope species symbol of each atom and pairs each raw EFG
tensor with it.  The warning strings printed by the body are returned
alongside the value. -/
def extract (env : Env) (order : String) (use_q_isotopes : Bool)
    (isotopes : List (String × ℕ)) (isotope_list : Option (List (Option ℕ)))
    (s : Atoms) : Except String (Atoms × List String × List EFGTensorObj) :=
  _has_efg_check (fun s =>
    let elems := s.symbols
    let c := checkIsotopeList elems isotope_list
    let isotopelist := _get_isotope_list env elems isotopes c.1 use_q_isotopes
    let species := List.zipWith (fun iso el => toString iso ++ el) isotopelist elems
    .ok (s, c.2,
      List.zipWith (fun efg sp => EFGTensorObj.mk efg sp order) (s.efg.getD []) species)) s

end EFGTensor

namespace EFGQuadrupolarConstant

/-- `EFGQuadrupolarConstant.extract`: guarded by `_has_efg_check`;
re-diagonalises when needed, validates the isotope list, resolves the
quadrupole moments and returns `EFG_TO_CHI * q_list * EFGVzz.get(s)`
elementwise.  Warnings are returned alongside the value. -/
def extract (env : Env) (force_recalc : Bool) (use_q_isotopes : Bool)
    (isotopes : List (String × ℕ)) (isotope_list : Option (List (Option ℕ)))
    (s : Atoms) : Except String (Atoms × List String × List ℚ) :=
  _has_efg_check (fun s =>
    let s1 := if s.efg_diagonal_evals_hsort.isNone || force_recalc
              then EFGDiagonal.store env s else s
    let elems := s.symbols
    let c := checkIsotopeList elems isotope_list
    let q_list := _get_isotope_data env .Q elems isotopes c.1 use_q_isotopes
    .ok (s1, c.2,
      List.zipWith (fun q v => env.efgToChi * q * v) q_list (EFGVzz.values s1))) s

end EFGQuadrupolarConstant

namespace EFGNQR

/-- The per-atom transition dictionaries built by the loop of
`EFGNQR.extract` (after the cache update), as a list of key/frequency
pairs per atom: empty for nuclei with `I <= 1/2`; for `I > 1/2` one entry
per `m` of `[m for m in _frange(-I, I+1, 1) if m >= 0.0][:-1]`, keyed
`f'm={m}->{m+1}'` with frequency
`3 * A * (2m+1) * sqrt(1 + eta^2/3)` where
`A = EFG_TO_CHI * Vzz * Q / (4I(2I-1))`. -/
def body (env : Env) (use_q_isotopes : Bool) (isotopes : List (String × ℕ))
    (isotope_list : Option (List (Option ℕ))) (s : Atoms) :
    List String × List (List (String × ℚ)) :=
  let elems := s.symbols
  let c := checkIsotopeList elems isotope_list
  let q_list := _get_isotope_data env .Q elems isotopes c.1 use_q_isotopes
  let I_list := _get_isotope_data env .I elems isotopes c.1 use_q_isotopes
  let eta_list := EFGAsymmetry.values s
  let vzz_list := EFGVzz.values s
  let nqr := (List.range elems.length).map (fun i =>
    let Ii := I_list.getD i 0
    if (1 : ℚ)/2 < Ii then
      let A := env.efgToChi * vzz_list.getD i 0 * q_list.getD i 0 /
        (4 * Ii * (2 * Ii - 1))
      let ms := ((_frange (-Ii) (Ii + 1)).filter (fun m => 0 ≤ m)).dropLast
      ms.map (fun m =>
        (nqrKey m, 3 * A * (2 * m + 1) * env.rsqrt (1 + (eta_list.getD i 0) ^ 2 / 3)))
    else [])
  (c.2, nqr)

/-- `EFGNQR.extract`: guarded by `_has_efg_check`; re-diagonalises when
needed (so that the nested `EFGAsymmetry.get(s)` / `EFGVzz.get(s)` calls
read the cache), then builds the per-atom transition dictionaries. -/
def extract (env : Env) (force_recalc : Bool) (use_q_isotopes : Bool)
    (isotopes : List (String × ℕ)) (isotope_list : Option (List (Option ℕ)))
    (s : Atoms) : Except String (Atoms × List String × List (List (String × ℚ))) :=
  _has_efg_check (fun s =>
    let s1 := if s.efg_diagonal_evals_hsort.isNone || force_recalc
              then EFGDiagonal.store env s else s
    let r := body env use_q_isotopes isotopes isotope_list s1
    .ok (s1, r.1, r.2)) s

end EFGNQR

namespace EFGQuadrupolarProduct

/-- `EFGQuadrupolarProduct.extract`: guarded by `_has_efg_check`;
re-diagonalises when needed, validates the isotope list and returns
`EFG_TO_CHI * q_list * Vzz * (1 + eta^2/3) ** 0.5` elementwise (the
float square root is the `rsqrt` oracle).  Warnings are returned
alongside the value. -/
def extract (env : Env) (force_recalc : Bool) (use_q_isotopes : Bool)
    (isotopes : List (String × ℕ)) (isotope_list : Option (List (Option ℕ)))
    (s : Atoms) : Except String (Atoms × List String × List ℚ) :=
  _has_efg_check (fun s =>
    let s1 := if s.efg_diagonal_evals_hsort.isNone || force_recalc
              then EFGDiagonal.store env s else s
    let elems := s.symbols
    let c := checkIsotopeList elems isotope_list
    let q_list := _get_isotope_data env .Q elems isotopes c.1 use_q_isotopes
    .ok (s1, c.2,
      List.zipWith (fun q p => env.efgToChi * q * p.1 * env.rsqrt (1 + p.2 ^ 2 / 3))
        q_list ((EFGVzz.values s1).zip (EFGAsymmetry.values s1)))) s

end EFGQuadrupolarProduct

/-! ## The trajectory branch of `AtomsProperty.get` (`atomsproperty.py`) -/

def typeErrorMsg : String := "TypeError"

def indexErrorMsg : String := "IndexError"

/-- The Python values that a per-frame property evaluation can produce,
as far as the trajectory-averaging branch of `AtomsProperty.get`
distinguishes them: `pyNone` is `None`, `num` a numeric scalar, `arr` a
numpy float array, and `objList` a Python list of tensor objects carrying
a `data` attribute (`soprano.nmr.tensor.NMRTensor`, external), with `τ`
the abstract tensor type. -/
inductive PyVal (τ : Type) where
  | pyNone : PyVal τ
  | num : ℚ → PyVal τ
  | arr : List ℚ → PyVal τ
  | objList : List τ → PyVal τ
deriving DecidableEq

/-- Python `+` as invoked by `sum(results)` on the values above: numeric
addition, numpy elementwise/broadcast addition with a scalar, numpy
elementwise addition of equal-length arrays, Python list concatenation;
every other combination (in particular `int + list`, the very first step
of `sum` on a list of lists, and anything involving `None`) raises a
`TypeError`, modelled as `none`.  Numpy length-1 broadcasting is not
modelled; the theorems below only use equal-length arrays. -/
def pyAdd {τ : Type} : PyVal τ → PyVal τ → Option (PyVal τ)
  | .num a, .num b => some (.num (a + b))
  | .num a, .arr xs => some (.arr (xs.map (fun x => a + x)))
  | .arr xs, .num b => some (.arr (xs.map (fun x => x + b)))
  | .arr xs, .arr ys =>
    if xs.length = ys.length then some (.arr (List.zipWith (fun x y => x + y) xs ys))
    else none
  | .objList a, .objList b => some (.objList (a ++ b))
  | _, _ => none

/-- Python `sum(results)`: fold of `pyAdd` starting from the integer `0`. -/
def pySum {τ : Type} (l : List (PyVal τ)) : Option (PyVal τ) :=
  l.foldl (fun acc v => acc.bind (fun a => pyAdd a v)) (some (.num 0))

/-- Python `/ len(results)`: scalar or numpy elementwise division by the
frame count; `TypeError` (`none`) on lists and `None`. -/
def pyDivNat {τ : Type} : PyVal τ → ℕ → Option (PyVal τ)
  | .num a, n => some (.num (a / n))
  | .arr xs, n => some (.arr (xs.map (fun x => x / n)))
  | _, _ => none

/-- Helper for the tensor-averaging branch: the Python code applies
`len(r)` and `r[i]` to every frame result and feeds the columns to
`NMRTensor.average`; this is well defined when every frame result is a
list of tensor objects, and extracts those lists (`none` otherwise,
modelled as a `TypeError`). -/
def allObjLists {τ : Type} : List (PyVal τ) → Option (List (List τ))
  | [] => some []
  | .objList ts :: rest => (allObjLists rest).map (fun r => ts :: r)
  | _ => none

/-- The `elif isinstance(s, list)` branch of `AtomsProperty.get`
(trajectory input).  `tavg` is the external `NMRTensor.average`; `ev` is
the recursive `self.get` on a single frame; `average=True` maps `ev` over
all frames and folds: when the first frame result is a nonempty Python
list whose first element carries a `data` attribute, the per-site
tensor average over the minimum common atom count is taken; otherwise
`sum(results) / len(results)` when there are frames, and `None` when not.
`average=False` evaluates only the last frame (`s[-1]`, an `IndexError`
on an empty list). -/
def AtomsProperty.getTrajectory {σ τ : Type} (tavg : List τ → τ)
    (ev : σ → PyVal τ) (s : List σ) (average : Bool) :
    Except String (PyVal τ) :=
  if average then
    let results := s.map ev
    match results.head? with
    | some (.objList (t :: _)) =>
      match allObjLists results with
      | some tss =>
        let n_atoms := ((tss.map List.length).min?).getD 0
        .ok (.objList ((List.range n_atoms).map
          (fun i => tavg (tss.map (fun r => r.getD i t)))))
      | none => .error typeErrorMsg
    | some _ =>
      match (pySum results).bind (fun x => pyDivNat x results.length) with
      | some v => .ok v
      | none => .error typeErrorMsg
    | none => .ok .pyNone
  else
    match s.getLast? with
    | some a => .ok (ev a)
    | none => .error indexErrorMsg

/-! ## `find_XHn_groups` (`scripts/nmr.py`) -/

/-- The error conditions of `find_XHn_groups`: a malformed functional
group pattern (the `ValueError` raised for a pattern without `H`, and the
unpack/int-conversion `ValueError` of `X, n = group_pattern.split('H')`),
the `assert len(group) == n`, and the
`ValueError(f'Found multiple matches for {group_pattern}')`. -/
inductive XHnError where
  | invalidPattern : String → XHnError
  | assertionFailed : XHnError
  | multipleMatches : String → XHnError
deriving DecidableEq

def hStr : String := "H"

def noSym : String := ""

def commaStr : String := ","

/-- Structural splitting of a character list on a separator character
(Python `str.split(sep)` for the single-character separators `'H'` and
`','` used by `find_XHn_groups`). -/
def splitOnCharAux (c : Char) : List Char → List Char → List (List Char)
  | [], acc => [acc.reverse]
  | x :: xs, acc =>
    if x = c then acc.reverse :: splitOnCharAux c xs []
    else splitOnCharAux c xs (x :: acc)

/-- Python `s.split(c)` for a single-character separator. -/
def strSplitOnChar (c : Char) (s : String) : List String :=
  (splitOnCharAux c s.data []).map String.mk

/-- Decimal digit value of a character, when it is a digit. -/
def charDigit? (ch : Char) : Option ℕ :=
  if '0' ≤ ch ∧ ch ≤ '9' then some (ch.toNat - '0'.toNat) else none

def digitsToNatAux : List Char → ℕ → Option ℕ
  | [], acc => some acc
  | ch :: rest, acc =>
    match charDigit? ch with
    | some d => digitsToNatAux rest (acc * 10 + d)
    | none => none

/-- Python `int(s)` on the non-negative decimal strings that valid XHn
patterns carry (`None` models the `ValueError` for anything else). -/
def strToNat? (s : String) : Option ℕ :=
  match s.data with
  | [] => none
  | l => digitsToNatAux l 0

/-- The pattern split of `find_XHn_groups`: the pattern must contain `H`;
`X, n = group_pattern.split('H')` requires exactly two fragments and an
integer hydrogen count. -/
def parsePattern (p : String) : Except XHnError (String × ℕ) :=
  if ¬ p.data.contains 'H' then .error (.invalidPattern p)
  else
    match strSplitOnChar 'H' p with
    | [x, nstr] =>
      match strToNat? nstr with
      | some n => .ok (x, n)
      | none => .error (.invalidPattern p)
    | _ => .error (.invalidPattern p)

/-- Bond matrix entry lookup (`bmat[i][j]`); the matrix is the output of
the external `Bonds` property of `soprano.properties.linkage`, supplied
as input. -/
def bmatAt (bmat : List (List Bool)) (i j : ℕ) : Bool :=
  (bmat.getD i []).getD j false

/-- One step of the group-collection loop of `find_XHn_groups` over a
candidate `group` (the hydrogen-subarray positions bonded to one X atom):
compare the candidate's tag vector `tags[group]` with the previously
seen tag vectors; on exactly one match merge the candidate into the
matched group (`groups[match[0]] += group`); on no match record the tag
vector and the candidate as a new group; on several matches raise
`ValueError('Found multiple matches for ...')`. -/
def xhnStep (p : String) (tags : List ℤ) (n : ℕ)
    (st : List (List ℤ) × List (List ℕ)) (group : List ℕ) :
    Except XHnError (List (List ℤ) × List (List ℕ)) :=
  if group.length ≠ n then .error .assertionFailed
  else
    let tagvec := group.map (fun j => tags.getD j 0)
    let mtchs := (List.range st.1.length).filter (fun k => st.1.getD k [] = tagvec)
    match mtchs with
    | [k] => .ok (st.1, st.2.set k (st.2.getD k [] ++ group))
    | [] => .ok (st.1 ++ [tagvec], st.2 ++ [group])
    | _ => .error (.multipleMatches p)

/-- The per-pattern body of `find_XHn_groups`: hydrogen indices `hinds`,
X-atom indices with exactly `n` bonded hydrogens `xinds`, then the
group-collection loop.  As in the source, each candidate group holds the
positions of its hydrogens *within* `hinds`
(`np.where(bmat[xind][hinds] == 1)[0]`), and those positions are what is
compared against `tags` and returned. -/
def findGroupsForPattern (p : String) (symbs : List String)
    (bmat : List (List Bool)) (tags : List ℤ) (x : String) (n : ℕ) :
    Except XHnError (List (List ℕ)) :=
  let hinds := (List.range symbs.length).filter (fun i => symbs.getD i noSym = hStr)
  let xinds0 := (List.range symbs.length).filter (fun i => symbs.getD i noSym = x)
  let xinds := xinds0.filter (fun i => (hinds.countP (fun h => bmatAt bmat i h)) = n)
  let groups := xinds.map (fun xind =>
    (List.range hinds.length).filter (fun j => bmatAt bmat xind (hinds.getD j 0)))
  (groups.foldlM (xhnStep p tags n) ([], [])).map (fun st => st.2)

/-- `find_XHn_groups(atoms, pattern_string, tags, ...)`: split the comma
separated pattern string and collect the groups of each pattern.  The
structure is given by its chemical symbols and the bond matrix computed
by the external `Bonds` property. -/
def find_XHn_groups (symbs : List String) (bmat : List (List Bool))
    (tags : List ℤ) (pattern_string : String) :
    Except XHnError (List (List (List ℕ))) :=
  (strSplitOnChar ',' pattern_string).mapM (fun group_pattern =>
    (parsePattern group_pattern).bind (fun xn =>
      findGroupsForPattern group_pattern symbs bmat tags xn.1 xn.2))

/-! ## `get_duplicates` and `average_quaternions_by_tags` (`scripts/nmr.py`) -/

/-- Values of a list in order of first occurrence (the key order of the
insertion-ordered Python `defaultdict` tally in `get_duplicates`). -/
def firstOccs (l : List ℤ) : List ℤ :=
  l.foldl (fun acc t => if t ∈ acc then acc else acc ++ [t]) []

/-- All positions of value `t` in `tags`, ascending (the index list
accumulated by the tally of `get_duplicates`). -/
def positionsOf (tags : List ℤ) (t : ℤ) : List ℕ :=
  (List.range tags.length).filter (fun i => tags.getD i 0 = t)

/-- `get_duplicates(seq)`: the mapping `{duplicate_value: [indices]}` for
the values occurring more than once, in first-occurrence order. -/
def get_duplicates (tags : List ℤ) : List (ℤ × List ℕ) :=
  ((firstOccs tags).filter (fun t => 2 ≤ tags.count t)).map
    (fun t => (t, positionsOf tags t))

/-- The write-back loop `for ig in idx: quaternions[ig] = quat_av` of
`average_quaternions_by_tags`. -/
def setAll {Q : Type} (v : Q) (idx : List ℕ) (qs : List Q) : List Q :=
  idx.foldl (fun qs' i => qs'.set i v) qs

/-- `average_quaternions_by_tags(quaternions, tags)`: when the tags are
not pairwise distinct (`len(set(tags)) != len(tags)`), every
duplicate-tag group is read from the current list, averaged through the
external `average_quaternions` (`qavg`), and the average written back to
every member; otherwise the list is returned unchanged.  `Q` is the
abstract quaternion type. -/
def average_quaternions_by_tags {Q : Type} (qavg : List Q → Q)
    (quaternions : List Q) (tags : List ℤ) : List Q :=
  if tags.Nodup then quaternions
  else
    (get_duplicates tags).foldl (fun qs p =>
      setAll (qavg (p.2.filterMap (fun i => qs[i]?))) p.2 qs) quaternions

/-! ## Tag-group aggregation of the `nmr` command (`scripts/nmr.py`) -/

/-- The combine rule selector of the `nmr` command (`--combine-rule`). -/
inductive CombineRule where
  | mean : CombineRule
  | first : CombineRule
deriving DecidableEq

/-- The slice of the per-site table assembled by the `nmr` command that
the aggregation acts on: per-atom tags, labels, multiplicities (all `1`
initially) and the numeric data columns (e.g. `EFG_asymmetry`,
`EFG_Vzz`), column-oriented. -/
structure SiteTable where
  tags : List ℤ
  labels : List String
  multiplicity : List ℚ
  dataCols : List (String × List ℚ)
deriving DecidableEq

/-- Values of a list of strings in order of first occurrence (used for
the set-style label join). -/
def firstOccsStr (l : List String) : List String :=
  l.foldl (fun acc t => if t ∈ acc then acc else acc ++ [t]) []

/-- Ascending insertion of an integer into a sorted list. -/
def insertSorted (x : ℤ) : List ℤ → List ℤ
  | [] => [x]
  | y :: ys => if x ≤ y then x :: y :: ys else y :: insertSorted x ys

/-- The distinct tag values in ascending order (the sorted group keys of
`df.groupby('tags')`). -/
def sortedUniqueTags (tags : List ℤ) : List ℤ :=
  (firstOccs tags).foldr insertSorted []

/-- Arithmetic mean of a list of rationals (the `mean` combine rule). -/
def aggMean (xs : List ℚ) : ℚ := xs.sum / xs.length

/-- Modelled from the spec: the pandas `df.groupby('tags').agg(aggrules)`
step of the `nmr` command with the rule assembly of the source (numeric
columns combine by the selected rule, `labels` by set union joined for
display, `multiplicity` by `count` of contributing sites).  One output
row per distinct tag, in ascending tag order; the display order of the
label set join is left as first occurrence. -/
def aggregate (rule : CombineRule) (t : SiteTable) : SiteTable :=
  let uts := sortedUniqueTags t.tags
  let grp := fun (u : ℤ) => positionsOf t.tags u
  { tags := uts
    labels := uts.map (fun u =>
      String.intercalate commaStr (firstOccsStr ((grp u).map (fun i => t.labels.getD i noSym))))
    multiplicity := uts.map (fun u => ((grp u).length : ℚ))
    dataCols := t.dataCols.map (fun col =>
      (col.1, uts.map (fun u =>
        let vals := (grp u).map (fun i => col.2.getD i 0)
        match rule with
        | .mean => aggMean vals
        | .first => vals.headD 0))) }

/-! ## Concrete objects used by the witnesses -/

/-- A concrete oracle bundle: identity square root, unit conversion
constant, and an isotope table with a single spin-3/2, `Q = 2` species
for element `"X"` and a spin-1/2, `Q = 0` default for everything else. -/
def cEnv : Env where
  eigh := fun _ => (((0, 0, 0) : Vec3), (((1,0,0), (0,1,0), (0,0,1)) : Mat3))
  rsqrt := id
  efgToChi := 1
  defaultIso := fun el => if el = "X" then 7 else 1
  qIso := fun _ => none
  spinTable := fun el iso => if el = "X" ∧ iso = 7 then 3/2 else 1/2
  quadTable := fun el iso => if el = "X" ∧ iso = 7 then 2 else 0

/-- A structure with no `"efg"` array at all. -/
def noEfgAtoms : Atoms where
  symbols := ["H"]
  efg := none
  efg_diagonal_evals := none
  efg_diagonal_evals_hsort := none
  efg_diagonal_evecs := none

/-- A one-atom structure of element `"X"` whose raw EFG array and
Haeberlen-sorted eigenvalue cache are both present; the cached triple
`(0, 0, 6)` has asymmetry `0` and Vzz `6`. -/
def xAtoms : Atoms where
  symbols := ["X"]
  efg := some [(((0,0,0), (0,0,0), (0,0,6)) : Mat3)]
  efg_diagonal_evals := some [((0, 0, 6) : Vec3)]
  efg_diagonal_evals_hsort := some [((0, 0, 6) : Vec3)]
  efg_diagonal_evecs := some [(((1,0,0), (0,1,0), (0,0,1)) : Mat3)]

/-! ## Claim C4 -/

/-- Claim C4: for every structure lacking the named array `"efg"`, every
EFG property extraction wrapped by `_has_efg_check` raises an error whose
message names the missing electric field gradient data, before any
computation or array write (in this state-passing embedding an error
return carries no updated structure, and the result is independent of the
wrapped body `f`).  The first conjunct settles the claim for an arbitrary
wrapped extraction; the remaining conjuncts instantiate it to every
embedded extractor. -/
theorem efg_extract_missing_data (env : Env) (s : Atoms) (h : s.efg = none) :
    (∀ (α : Type) (f : Atoms → Except String α),
      _has_efg_check f s = .error efgMissingMsg) ∧
    (∀ ord uq isotopes il,
      EFGTensor.extract env ord uq isotopes il s = .error efgMissingMsg) ∧
    (∀ sa, EFGDiagonal.extract env sa s = .error efgMissingMsg) ∧
    (∀ fr, EFGVzz.extract env fr s = .error efgMissingMsg) ∧
    (∀ fr, EFGAsymmetry.extract env fr s = .error efgMissingMsg) ∧
    (∀ fr uq isotopes il,
      EFGQuadrupolarConstant.extract env fr uq isotopes il s = .error efgMissingMsg) ∧
    (∀ fr uq isotopes il,
      EFGNQR.extract env fr uq isotopes il s = .error efgMissingMsg) ∧
    (∀ fr uq isotopes il,
      EFGQuadrupolarProduct.extract env fr uq isotopes il s = .error efgMissingMsg) := by
  refine ⟨?_, ?_, ?_, ?_, ?_, ?_, ?_, ?_⟩ <;>
    intros <;>
    simp [_has_efg_check, h, EFGTensor.extract, EFGDiagonal.extract,
      EFGVzz.extract, EFGAsymmetry.extract, EFGQuadrupolarConstant.extract,
      EFGNQR.extract, EFGQuadrupolarProduct.extract]

/-- Witness for C4 at a concrete structure with no EFG data. -/
theorem efg_extract_missing_data_witness :
    noEfgAtoms.efg = none ∧
    EFGNQR.extract cEnv false false [] none noEfgAtoms = .error efgMissingMsg :=
  ⟨rfl, (efg_extract_missing_data cEnv noEfgAtoms rfl).2.2.2.2.2.2.1 false false [] none⟩

/-! ## Claim C10 -/

/-- Claim C10: `AtomsProperty.get` on an empty list of structures with
`average=True` returns `None`: the per-frame results are empty, the
tensor branch is skipped, and the trailing conditional returns `None`
without raising; no frame is evaluated (there are none). -/
theorem getTrajectory_empty_average {σ τ : Type} (tavg : List τ → τ)
    (ev : σ → PyVal τ) :
    AtomsProperty.getTrajectory tavg ev ([] : List σ) true = .ok .pyNone := rfl

/-! ## Claim C6 -/

/-- Claim C6: `AtomsProperty.get` on a non-empty list of structures with
`average=False` returns the property of the last frame alone, and the
result depends only on the evaluation of that last frame (no other frame
is evaluated). -/
theorem getTrajectory_no_average {σ τ : Type} (tavg : List τ → τ)
    (ev : σ → PyVal τ) (s : List σ) (h : s ≠ []) :
    AtomsProperty.getTrajectory tavg ev s false = .ok (ev (s.getLast h)) ∧
    (∀ (tavg' : List τ → τ) (ev' : σ → PyVal τ),
      ev' (s.getLast h) = ev (s.getLast h) →
      AtomsProperty.getTrajectory tavg' ev' s false
        = AtomsProperty.getTrajectory tavg ev s false) := by
  have hl : s.getLast? = some (s.getLast h) := List.getLast?_eq_getLast s h
  constructor
  · simp [AtomsProperty.getTrajectory, hl]
  · intro tavg' ev' hee
    simp [AtomsProperty.getTrajectory, hl, hee]

/-- Witness for C6: a three-frame trajectory whose frames evaluate to
`0, 1, 2`; the non-averaged result is the last frame's value `2`. -/
theorem getTrajectory_no_average_witness :
    ([0, 1, 2] : List ℕ) ≠ [] ∧
    AtomsProperty.getTrajectory (fun _ => ()) (fun n => PyVal.num n)
      ([0, 1, 2] : List ℕ) false = .ok (.num 2) :=
  ⟨by simp, (getTrajectory_no_average (fun _ => ()) (fun n => PyVal.num n)
    [0, 1, 2] (by simp)).1⟩

/-! ## Claim C8 -/

/-- Claim C8: aggregating with combine rule `mean` the 4-atom table
tagged `[0,0,1,1]` with asymmetries `[0.1,0.1,0.3,0.3]` and Vzz
`[10,10,5,5]` yields exactly two rows: tag 0 with asymmetry `0.1` and
Vzz `10`, tag 1 with asymmetry `0.3` and Vzz `5`, both with multiplicity
`2` (the count of contributing sites). -/
theorem nmr_aggregate_example :
    aggregate .mean
      { tags := [0, 0, 1, 1], labels := ["A1", "A2", "B1", "B2"],
        multiplicity := [1, 1, 1, 1],
        dataCols := [("EFG_asymmetry", [1/10, 1/10, 3/10, 3/10]),
                     ("EFG_Vzz", [10, 10, 5, 5])] } =
      { tags := [0, 1], labels := ["A1,A2", "B1,B2"],
        multiplicity := [2, 2],
        dataCols := [("EFG_asymmetry", [1/10, 3/10]),
                     ("EFG_Vzz", [10, 5])] } := by
  simp only [aggregate, sortedUniqueTags, firstOccs, insertSorted, positionsOf, aggMean,
    firstOccsStr, SiteTable.mk.injEq]
  norm_num [List.range, List.range.loop, insertSorted, String.intercalate,
    String.intercalate.go, commaStr]
  decide

/-! ## Claim C7 -/

/-- Claim C7: an `isotope_list` whose length differs from the atom count
does not make the EFG extractors fail: each of `EFGTensor`,
`EFGQuadrupolarConstant`, `EFGNQR` and `EFGQuadrupolarProduct` prints the
non-fatal warning, discards the list (treats it as `None`, so every
atom's isotope is resolved from the per-element overrides / flags /
defaults) and otherwise behaves exactly as when called with
`isotope_list=None`; when the EFG data is present the extraction
succeeds. -/
theorem efg_isotope_list_mismatch (env : Env) (frc uq : Bool) (ord : String)
    (isotopes : List (String × ℕ)) (l : List (Option ℕ)) (s : Atoms)
    (hl : l.length ≠ s.symbols.length) :
    (EFGTensor.extract env ord uq isotopes (some l) s
      = (EFGTensor.extract env ord uq isotopes none s).map
          (fun r => (r.1, invalidIsotopeListMsg :: r.2.1, r.2.2))) ∧
    (EFGQuadrupolarConstant.extract env frc uq isotopes (some l) s
      = (EFGQuadrupolarConstant.extract env frc uq isotopes none s).map
          (fun r => (r.1, invalidIsotopeListMsg :: r.2.1, r.2.2))) ∧
    (EFGNQR.extract env frc uq isotopes (some l) s
      = (EFGNQR.extract env frc uq isotopes none s).map
          (fun r => (r.1, invalidIsotopeListMsg :: r.2.1, r.2.2))) ∧
    (EFGQuadrupolarProduct.extract env frc uq isotopes (some l) s
      = (EFGQuadrupolarProduct.extract env frc uq isotopes none s).map
          (fun r => (r.1, invalidIsotopeListMsg :: r.2.1, r.2.2))) ∧
    (s.efg ≠ none →
      (∃ o, EFGTensor.extract env ord uq isotopes (some l) s = .ok o) ∧
      (∃ o, EFGQuadrupolarConstant.extract env frc uq isotopes (some l) s = .ok o) ∧
      (∃ o, EFGNQR.extract env frc uq isotopes (some l) s = .ok o) ∧
      (∃ o, EFGQuadrupolarProduct.extract env frc uq isotopes (some l) s = .ok o)) := by
  have hcheck : checkIsotopeList s.symbols (some l) = (none, [invalidIsotopeListMsg]) := by
    simp [checkIsotopeList, hl]
  cases hefg : s.efg with
  | none =>
    simp [EFGTensor.extract, EFGQuadrupolarConstant.extract, EFGNQR.extract,
      EFGQuadrupolarProduct.extract, _has_efg_check, hefg, Except.map]
  | some efgs =>
    have hnone : checkIsotopeList s.symbols none = (none, []) := rfl
    refine ⟨?_, ?_, ?_, ?_, fun _ => ⟨?_, ?_, ?_, ?_⟩⟩
    · simp only [EFGTensor.extract, _has_efg_check, hefg, Option.isNone_some,
        Bool.false_eq_true, if_false, Except.map]
      simp [hcheck, hnone]
    · simp only [EFGQuadrupolarConstant.extract, _has_efg_check, hefg, Option.isNone_some,
        Bool.false_eq_true, if_false, Except.map]
      simp [hcheck, hnone]
    · simp only [EFGNQR.extract, _has_efg_check, hefg, Option.isNone_some,
        Bool.false_eq_true, if_false, Except.map]
      split <;> simp [EFGNQR.body, EFGDiagonal.store, hcheck, hnone]
    · simp only [EFGQuadrupolarProduct.extract, _has_efg_check, hefg, Option.isNone_some,
        Bool.false_eq_true, if_false, Except.map]
      simp [hcheck, hnone]
    · simp only [EFGTensor.extract, _has_efg_check, hefg, Option.isNone_some,
        Bool.false_eq_true, if_false]
      exact ⟨_, rfl⟩
    · simp only [EFGQuadrupolarConstant.extract, _has_efg_check, hefg, Option.isNone_some,
        Bool.false_eq_true, if_false]
      exact ⟨_, rfl⟩
    · simp only [EFGNQR.extract, _has_efg_check, hefg, Option.isNone_some,
        Bool.false_eq_true, if_false]
      exact ⟨_, rfl⟩
    · simp only [EFGQuadrupolarProduct.extract, _has_efg_check, hefg, Option.isNone_some,
        Bool.false_eq_true, if_false]
      exact ⟨_, rfl⟩

/-- Witness for C7: a one-atom structure given a length-2 isotope list;
the `EFGNQR` extraction succeeds and equals the `None` run with the
warning prepended. -/
theorem efg_isotope_list_mismatch_witness :
    ([some 2, some 3] : List (Option ℕ)).length ≠ xAtoms.symbols.length ∧
    EFGNQR.extract cEnv false false [] (some [some 2, some 3]) xAtoms
      = (EFGNQR.extract cEnv false false [] none xAtoms).map
          (fun r => (r.1, invalidIsotopeListMsg :: r.2.1, r.2.2)) :=
  ⟨by simp [xAtoms],
   (efg_isotope_list_mismatch cEnv false false noSym [] [some 2, some 3] xAtoms
      (by simp [xAtoms])).2.2.1⟩

/-! ## Claim C9 -/

theorem setAll_length {Q : Type} (v : Q) (idx : List ℕ) (qs : List Q) :
    (setAll v idx qs).length = qs.length := by
  induction idx generalizing qs with
  | nil => rfl
  | cons j rest ih => simp [setAll, List.foldl_cons] at ih ⊢; rw [ih, List.length_set]

theorem setAll_getElem_not_mem {Q : Type} (v : Q) (idx : List ℕ) (qs : List Q)
    (i : ℕ) (h : i ∉ idx) : (setAll v idx qs)[i]? = qs[i]? := by
  induction idx generalizing qs with
  | nil => rfl
  | cons j rest ih =>
    simp only [setAll, List.foldl_cons] at ih ⊢
    have hji : j ≠ i := fun he => h (he ▸ List.mem_cons_self j rest)
    rw [ih _ (fun hm => h (List.mem_cons_of_mem j hm)), List.getElem?_set_ne hji]

theorem setAll_getElem_mem {Q : Type} (v : Q) (idx : List ℕ) (qs : List Q)
    (i : ℕ) (h : i ∈ idx) (hi : i < qs.length) : (setAll v idx qs)[i]? = some v := by
  induction idx generalizing qs with
  | nil => exact absurd h (List.not_mem_nil i)
  | cons j rest ih =>
    simp only [setAll, List.foldl_cons] at ih ⊢
    by_cases hm : i ∈ rest
    · exact ih (qs.set j v) hm (by simpa using hi)
    · have hij : i = j := by
        rcases List.mem_cons.mp h with h | h
        · exact h
        · exact absurd h hm
      subst hij
      rw [show (List.foldl (fun qs' i => qs'.set i v) (qs.set i v) rest) = setAll v rest (qs.set i v) from rfl,
        setAll_getElem_not_mem v rest _ i hm,
        List.getElem?_set_eq_of_lt v hi]

theorem mem_positionsOf (tags : List ℤ) (t : ℤ) (i : ℕ) :
    i ∈ positionsOf tags t ↔ i < tags.length ∧ tags.getD i 0 = t := by
  simp [positionsOf, List.mem_filter, List.mem_range]

theorem mem_firstOccs_aux (l : List ℤ) :
    ∀ acc t, t ∈ l.foldl (fun acc t => if t ∈ acc then acc else acc ++ [t]) acc ↔
      t ∈ acc ∨ t ∈ l := by
  induction l with
  | nil => simp
  | cons x xs ih =>
    intro acc t
    simp only [List.foldl_cons]
    by_cases hx : x ∈ acc
    · rw [if_pos hx, ih]
      constructor
      · rintro (h | h)
        · exact .inl h
        · exact .inr (List.mem_cons_of_mem x h)
      · rintro (h | h)
        · exact .inl h
        · rcases List.mem_cons.mp h with rfl | h
          · exact .inl hx
          · exact .inr h
    · rw [if_neg hx, ih]
      simp only [List.mem_append, List.mem_singleton, List.mem_cons]
      tauto

theorem mem_firstOccs (l : List ℤ) (t : ℤ) : t ∈ firstOccs l ↔ t ∈ l := by
  rw [firstOccs, mem_firstOccs_aux]
  simp

theorem nodup_firstOccs_aux (l : List ℤ) :
    ∀ acc, acc.Nodup → (l.foldl (fun acc t => if t ∈ acc then acc else acc ++ [t]) acc).Nodup := by
  induction l with
  | nil => exact fun acc h => h
  | cons x xs ih =>
    intro acc hacc
    simp only [List.foldl_cons]
    by_cases hx : x ∈ acc
    · rw [if_pos hx]; exact ih acc hacc
    · rw [if_neg hx]
      exact ih _ (by simp [List.nodup_append, hacc, hx])

theorem nodup_firstOccs (l : List ℤ) : (firstOccs l).Nodup :=
  nodup_firstOccs_aux l [] List.nodup_nil

theorem get_duplicates_fst (tags : List ℤ) :
    (get_duplicates tags).map Prod.fst
      = (firstOccs tags).filter (fun t => 2 ≤ tags.count t) := by
  rw [get_duplicates, List.map_map,
    show (Prod.fst ∘ fun t => (t, positionsOf tags t)) = id from rfl, List.map_id]

theorem mem_get_duplicates_fst (tags : List ℤ) (t : ℤ) :
    t ∈ (get_duplicates tags).map Prod.fst ↔ t ∈ tags ∧ 2 ≤ tags.count t := by
  rw [get_duplicates_fst, List.mem_filter, mem_firstOccs]
  simp

theorem get_duplicates_snd (tags : List ℤ) (p : ℤ × List ℕ)
    (h : p ∈ get_duplicates tags) : p.2 = positionsOf tags p.1 := by
  simp only [get_duplicates, List.mem_map, List.mem_filter] at h
  obtain ⟨t, _, rfl⟩ := h
  rfl

/-- The duplicate-group write-back fold of `average_quaternions_by_tags`:
provided the groups carry the position lists of pairwise distinct tag
values, the final list holds, at every index whose tag value heads one of
the groups, the average of the initial values over that tag's positions,
and the initial value elsewhere. -/
theorem avgFold_getElem {Q : Type} (qavg : List Q → Q) (tags : List ℤ) :
    ∀ (G : List (ℤ × List ℕ)) (qs : List Q),
      (∀ p ∈ G, p.2 = positionsOf tags p.1) →
      ((G.map Prod.fst).Nodup) →
      qs.length = tags.length →
      ∀ i, i < tags.length →
        (G.foldl (fun qs p => setAll (qavg (p.2.filterMap (fun j => qs[j]?))) p.2 qs) qs)[i]?
          = if tags.getD i 0 ∈ G.map Prod.fst
            then some (qavg ((positionsOf tags (tags.getD i 0)).filterMap (fun j => qs[j]?)))
            else qs[i]? := by
  intro G
  induction G with
  | nil => intro qs _ _ _ i _; simp
  | cons p rest ih =>
    intro qs hG hnd hlen i hi
    obtain ⟨t₀, idx₀⟩ := p
    have hidx₀ : idx₀ = positionsOf tags t₀ := hG (t₀, idx₀) (List.mem_cons_self _ _)
    simp only [List.map_cons, List.nodup_cons] at hnd
    set v := qavg (idx₀.filterMap (fun j => qs[j]?)) with hv
    set qs' := setAll v idx₀ qs with hqs'
    have hlen' : qs'.length = tags.length := by rw [hqs', setAll_length, hlen]
    have hrest := ih qs' (fun q hq => hG q (List.mem_cons_of_mem _ hq)) hnd.2 hlen' i hi
    simp only [List.foldl_cons, List.map_cons]
    rw [← hv, ← hqs', hrest]
    by_cases hmem : tags.getD i 0 ∈ rest.map Prod.fst
    · -- the tag of `i` heads a later group: its positions are untouched by
      -- the current write-back, so the average over `qs'` is the average
      -- over `qs`.
      rw [if_pos hmem, if_pos (List.mem_cons_of_mem _ hmem)]
      have hne : tags.getD i 0 ≠ t₀ := fun he => hnd.1 (he ▸ hmem)
      have : (positionsOf tags (tags.getD i 0)).filterMap (fun j => qs'[j]?)
          = (positionsOf tags (tags.getD i 0)).filterMap (fun j => qs[j]?) := by
        refine List.filterMap_congr (fun j hj => ?_)
        have hj' := (mem_positionsOf tags _ j).mp hj
        have : j ∉ idx₀ := by
          rw [hidx₀, mem_positionsOf]
          exact fun hc => hne (hj'.2 ▸ hc.2 ▸ rfl)
        rw [hqs', setAll_getElem_not_mem _ _ _ _ this]
      rw [this]
    · by_cases ht₀ : tags.getD i 0 = t₀
      · -- `i` belongs to the group being written: it receives the average
        -- of the current (initial) values at the group's positions.
        rw [if_neg hmem, if_pos (show tags.getD i 0 ∈ t₀ :: rest.map Prod.fst by
          rw [ht₀]; exact List.mem_cons_self _ _)]
        have : i ∈ idx₀ := by rw [hidx₀, mem_positionsOf]; exact ⟨hi, ht₀⟩
        rw [hqs', setAll_getElem_mem _ _ _ _ this (hlen ▸ hi), hv, hidx₀, ht₀]
      · have hcond : tags.getD i 0 ∉ t₀ :: rest.map Prod.fst := by
          intro hin
          rcases List.mem_cons.mp hin with h | h
          · exact ht₀ h
          · exact hmem h
        rw [if_neg hmem, if_neg hcond]
        have : i ∉ idx₀ := by
          rw [hidx₀, mem_positionsOf]
          exact fun hc => ht₀ (hc.2 ▸ rfl)
        rw [hqs', setAll_getElem_not_mem _ _ _ _ this]

/-- Claim C9: after `average_quaternions_by_tags`, every entry belonging
to a duplicate-tag group holds the quaternion average (through the
external `average_quaternions`) of the group's original quaternions —
the same value for every member of the group — while entries with a
unique tag keep their original quaternion. -/
theorem average_quaternions_by_tags_spec {Q : Type} (qavg : List Q → Q)
    (quats : List Q) (tags : List ℤ) (hlen : quats.length = tags.length)
    (i : ℕ) (hi : i < tags.length) :
    (2 ≤ tags.count (tags.getD i 0) →
      (average_quaternions_by_tags qavg quats tags)[i]?
        = some (qavg ((positionsOf tags (tags.getD i 0)).filterMap (fun j => quats[j]?)))) ∧
    (tags.count (tags.getD i 0) ≤ 1 →
      (average_quaternions_by_tags qavg quats tags)[i]? = quats[i]?) := by
  have hmem : tags.getD i 0 ∈ tags := by
    rw [List.getD_eq_getElem?_getD, List.getElem?_eq_getElem hi]
    exact List.getElem_mem hi
  by_cases hnd : tags.Nodup
  · refine ⟨fun hc => ?_, fun _ => ?_⟩
    · exact absurd hc (by have := List.nodup_iff_count_le_one.mp hnd (tags.getD i 0); omega)
    · simp [average_quaternions_by_tags, hnd]
  · have hfold := avgFold_getElem qavg tags (get_duplicates tags) quats
      (get_duplicates_snd tags)
      (by rw [get_duplicates_fst]; exact (nodup_firstOccs tags).filter _)
      hlen i hi
    rw [average_quaternions_by_tags, if_neg hnd]
    refine ⟨fun hc => ?_, fun hc => ?_⟩
    · rw [hfold, if_pos ((mem_get_duplicates_fst tags _).mpr ⟨hmem, hc⟩)]
    · rw [hfold, if_neg (fun hin => by
        have := ((mem_get_duplicates_fst tags _).mp hin).2; omega)]

/-- Witness for C9: tags `[5, 6, 5, 7, 6]` over values `[1, 10, 100,
1000, 10000]` with list-sum as the averaging oracle; entry 0 becomes the
average of entries 0 and 2, and the unique-tag entry 3 is unchanged. -/
theorem average_quaternions_by_tags_witness :
    ([1, 10, 100, 1000, 10000] : List ℤ).length = ([5, 6, 5, 7, 6] : List ℤ).length ∧
    (0 : ℕ) < ([5, 6, 5, 7, 6] : List ℤ).length ∧
    (3 : ℕ) < ([5, 6, 5, 7, 6] : List ℤ).length ∧
    (average_quaternions_by_tags (fun l => l.sum)
        ([1, 10, 100, 1000, 10000] : List ℤ) [5, 6, 5, 7, 6])[0]? = some 101 ∧
    (average_quaternions_by_tags (fun l => l.sum)
        ([1, 10, 100, 1000, 10000] : List ℤ) [5, 6, 5, 7, 6])[3]? = some 1000 := by
  refine ⟨rfl, by decide, by decide, ?_, ?_⟩
  · have h := (average_quaternions_by_tags_spec (fun l => l.sum)
      ([1, 10, 100, 1000, 10000] : List ℤ) [5, 6, 5, 7, 6] rfl 0 (by decide)).1 (by decide)
    rw [h]; rfl
  · have h := (average_quaternions_by_tags_spec (fun l => l.sum)
      ([1, 10, 100, 1000, 10000] : List ℤ) [5, 6, 5, 7, 6] rfl 3 (by decide)).2 (by decide)
    rw [h]; rfl

/-! ## Claim C5 -/

theorem allObjLists_map {τ : Type} (tss : List (List τ)) :
    allObjLists (tss.map PyVal.objList) = some tss := by
  induction tss with
  | nil => rfl
  | cons ts rest ih => simp [allObjLists, ih]

theorem pySum_nums_aux {τ : Type} (qs : List ℚ) :
    ∀ a : ℚ, (qs.map (PyVal.num (τ := τ))).foldl
        (fun acc v => acc.bind (fun x => pyAdd x v)) (some (.num a))
      = some (.num (a + qs.sum)) := by
  induction qs with
  | nil => intro a; simp
  | cons q rest ih =>
    intro a
    rw [List.map_cons, List.foldl_cons,
      show ((some (PyVal.num (τ := τ) a)).bind (fun x => pyAdd x (.num q)))
          = some (.num (a + q)) from rfl,
      ih, List.sum_cons, add_assoc]

theorem pySum_arrs_aux {τ : Type} (L : ℕ) (xss : List (List ℚ)) :
    ∀ A : List ℚ, A.length = L → (∀ ys ∈ xss, ys.length = L) →
      (xss.map (PyVal.arr (τ := τ))).foldl
          (fun acc v => acc.bind (fun x => pyAdd x v)) (some (.arr A))
        = some (.arr (xss.foldl (fun a y => List.zipWith (fun u v => u + v) a y) A)) := by
  induction xss with
  | nil => intro A _ _; simp
  | cons y rest ih =>
    intro A hA hall
    have hy : y.length = L := hall y (List.mem_cons_self y rest)
    rw [List.map_cons, List.foldl_cons,
      show ((some (PyVal.arr (τ := τ) A)).bind (fun x => pyAdd x (.arr y)))
          = (if A.length = y.length
             then some (PyVal.arr (List.zipWith (fun u v => u + v) A y)) else none) from rfl,
      if_pos (by rw [hA, hy]),
      ih _ (by rw [List.length_zipWith, hA, hy, Nat.min_self])
        (fun z hz => hall z (List.mem_cons_of_mem y hz)),
      List.foldl_cons]

/-- Claim C5 (amended): with `average=True` on a non-empty trajectory,
(a) when every frame result is a Python list of tensor objects and the
first frame's list is non-empty, the result is the per-site list, of
length the minimum frame result length, whose `i`-th entry is the tensor
average (external `NMRTensor.average`) of the `i`-th entries across
frames; (b) when every frame result is a numeric scalar the result is
their arithmetic mean `sum(results)/len(results)`; (c) when every frame
result is a numpy array of one common length the result is the
elementwise arithmetic mean (the elementwise sum of the per-frame arrays
divided by the number of frames). -/
theorem getTrajectory_average_spec {σ τ : Type} (tavg : List τ → τ)
    (ev : σ → PyVal τ) :
    (∀ (s : List σ) (t : τ) (ts : List τ) (rest : List (List τ)),
      s.map ev = ((t :: ts) :: rest).map PyVal.objList →
      AtomsProperty.getTrajectory tavg ev s true
        = .ok (.objList
            ((List.range ((((t :: ts) :: rest).map List.length).min?.getD 0)).map
              (fun i => tavg (((t :: ts) :: rest).map (fun r => r.getD i t)))))) ∧
    (∀ (s : List σ) (q : ℚ) (qs : List ℚ),
      s.map ev = (q :: qs).map PyVal.num →
      AtomsProperty.getTrajectory tavg ev s true
        = .ok (.num ((q :: qs).sum / (q :: qs).length))) ∧
    (∀ (s : List σ) (L : ℕ) (x : List ℚ) (xss : List (List ℚ)),
      s.map ev = (x :: xss).map PyVal.arr →
      (∀ ys ∈ x :: xss, ys.length = L) →
      AtomsProperty.getTrajectory tavg ev s true
        = .ok (.arr
            ((xss.foldl (fun a y => List.zipWith (fun u v => u + v) a y) x).map
              (fun u => u / ((xss.length + 1) : ℕ))))) := by
  refine ⟨?_, ?_, ?_⟩
  · intro s t ts rest hmap
    have hobj : allObjLists ((PyVal.objList (τ := τ) (t :: ts)) :: rest.map PyVal.objList)
        = some ((t :: ts) :: rest) := by
      rw [← List.map_cons]; exact allObjLists_map _
    simp [AtomsProperty.getTrajectory, hmap, hobj]
  · intro s q qs hmap
    have hsum : pySum ((PyVal.num (τ := τ) q) :: qs.map PyVal.num)
        = some (.num (q + qs.sum)) := by
      rw [show pySum ((PyVal.num (τ := τ) q) :: qs.map PyVal.num)
          = (qs.map (PyVal.num (τ := τ))).foldl
              (fun acc v => acc.bind (fun x => pyAdd x v)) (some (.num (0 + q))) from rfl,
        pySum_nums_aux, zero_add]
    simp [AtomsProperty.getTrajectory, hmap, hsum, pyDivNat]
  · intro s L x xss hmap hall
    have hx : x.length = L := hall x (List.mem_cons_self x xss)
    have hzero : (x.map (fun u => (0 : ℚ) + u)) = x := by simp
    have hsum : pySum ((PyVal.arr (τ := τ) x) :: xss.map PyVal.arr)
        = some (.arr (xss.foldl (fun a y => List.zipWith (fun u v => u + v) a y) x)) := by
      rw [show pySum ((PyVal.arr (τ := τ) x) :: xss.map PyVal.arr)
          = (xss.map (PyVal.arr (τ := τ))).foldl
              (fun acc v => acc.bind (fun x => pyAdd x v))
              (some (.arr (x.map (fun u => (0 : ℚ) + u)))) from rfl,
        hzero, pySum_arrs_aux L xss x hx (fun z hz => hall z (List.mem_cons_of_mem x hz))]
    simp [AtomsProperty.getTrajectory, hmap, hsum, pyDivNat]

/-- Counterexample for C5 as stated: a single-frame trajectory whose
frame result is the empty Python list (vacuously a list of objects
carrying a `data` attribute, with minimum frame result length 0).  The
claim predicts a per-site list result; the code skips the tensor branch
(`len(results[0]) > 0` fails) and `sum(results)` then raises a
`TypeError` (`0 + []`), so no value is returned. -/
theorem getTrajectory_average_empty_first_frame :
    AtomsProperty.getTrajectory (fun l : List ℚ => l.headD 0)
      (fun _ : Unit => PyVal.objList ([] : List ℚ)) [()] true
      = .error typeErrorMsg := rfl

/-- Witness for C5 (amended), instantiating all three branches:
two tensor-list frames `[1, 2]` and `[3]` (minimum length 1), three
scalar frames `1, 2, 3`, and two array frames `[1, 2]` and `[3, 4]`. -/
theorem getTrajectory_average_spec_witness :
    (([0, 1] : List ℕ).map
        (fun n => if n = 0 then PyVal.objList ([1, 2] : List ℤ) else .objList [3])
      = (((1 : ℤ) :: [2]) :: [[3]]).map PyVal.objList) ∧
    (AtomsProperty.getTrajectory (fun l : List ℤ => l.sum)
        (fun n => if n = 0 then PyVal.objList ([1, 2] : List ℤ) else .objList [3]) [0, 1] true
      = .ok (.objList
          ((List.range (((((1 : ℤ) :: [2]) :: [[3]]).map List.length).min?.getD 0)).map
            (fun i => (fun l : List ℤ => l.sum)
              ((((1 : ℤ) :: [2]) :: [[3]]).map (fun r => r.getD i 1)))))) ∧
    (([1, 2, 3] : List ℕ).map (fun n => PyVal.num (τ := Unit) n)
      = ((1 : ℚ) :: [2, 3]).map PyVal.num) ∧
    (AtomsProperty.getTrajectory (fun _ : List Unit => ())
        (fun n : ℕ => PyVal.num n) [1, 2, 3] true
      = .ok (.num ((((1 : ℚ) :: [2, 3]).sum / ((1 : ℚ) :: [2, 3]).length)))) ∧
    (AtomsProperty.getTrajectory (fun _ : List Unit => ())
        (fun n : ℕ => if n = 0 then PyVal.arr [1, 2] else .arr [3, 4]) [0, 1] true
      = .ok (.arr
          ((([[3, 4]] : List (List ℚ)).foldl (fun a y => List.zipWith (fun u v => u + v) a y)
              [1, 2]).map (fun u => u / ((([[3, 4]] : List (List ℚ)).length + 1) : ℕ))))) := by
  refine ⟨by norm_num, ?_, by norm_num, ?_, ?_⟩
  · exact (getTrajectory_average_spec (fun l : List ℤ => l.sum)
      (fun n => if n = 0 then PyVal.objList ([1, 2] : List ℤ) else .objList [3])).1
      [0, 1] 1 [2] [[3]] (by norm_num)
  · exact (getTrajectory_average_spec (fun _ : List Unit => ())
      (fun n : ℕ => PyVal.num n)).2.1 [1, 2, 3] 1 [2, 3] (by norm_num)
  · exact (getTrajectory_average_spec (fun _ : List Unit => ())
      (fun n : ℕ => if n = 0 then PyVal.arr [1, 2] else .arr [3, 4])).2.2 [0, 1] 2 [1, 2] [[3, 4]]
      (by norm_num)
      (by intro ys hys
          simp only [List.mem_cons, List.not_mem_nil, or_false] at hys
          rcases hys with rfl | rfl <;> rfl)

/-! ## Claim C3 -/

instance {ε α : Type} [DecidableEq ε] [DecidableEq α] : DecidableEq (Except ε α) :=
  fun x y =>
    match x, y with
    | .ok a, .ok b => if h : a = b then isTrue (by rw [h]) else isFalse (by simp [h])
    | .error a, .error b => if h : a = b then isTrue (by rw [h]) else isFalse (by simp [h])
    | .ok _, .error _ => isFalse (by simp)
    | .error _, .ok _ => isFalse (by simp)

/-- Counterexample for C3 as stated: two CH1 candidate groups whose
hydrogen tag vectors coincide (`[0]` and `[0]`) while their memberships
differ (hydrogen positions `[0]` and `[1]`).  The claim predicts a fatal
ambiguous-grouping error; the code instead takes the `len(match) == 1`
branch, silently merges the second group into the first
(`groups[match[0]] += group`) and returns the merged group list. -/
theorem find_XHn_groups_collision_merges :
    find_XHn_groups ["C", "H", "C", "H"]
      [[false, true, false, false], [true, false, false, false],
       [false, false, false, true], [false, false, true, false]]
      [0, 0, 1, 1] "CH1" = .ok [[[0, 1]]] := by
  rfl

theorem eq_singleton_of_nodup_mem {α : Type} (l : List α) (k : α)
    (hnd : l.Nodup) (hm : ∀ x, x ∈ l ↔ x = k) : l = [k] := by
  cases l with
  | nil => exact absurd ((hm k).mpr rfl) (List.not_mem_nil k)
  | cons x rest =>
    have hx : x = k := (hm x).mp (List.mem_cons_self _ _)
    subst hx
    cases rest with
    | nil => rfl
    | cons y rest2 =>
      have hy : y = x := (hm y).mp (List.mem_cons_of_mem _ (List.mem_cons_self _ _))
      rw [List.nodup_cons] at hnd
      exact absurd (hy ▸ List.mem_cons_self y rest2) hnd.1

/-- For a duplicate-free `seen` list containing `v`, the match filter of
the collection loop finds exactly the one index of `v`. -/
theorem matchFilter_singleton (seen : List (List ℤ)) (v : List ℤ)
    (hnd : seen.Nodup) (hv : v ∈ seen) :
    ∃ k, ((List.range seen.length).filter (fun k => seen.getD k [] = v)) = [k] ∧
      seen[k]? = some v := by
  obtain ⟨k, hk, hkv⟩ := List.getElem_of_mem hv
  refine ⟨k, ?_, by rw [List.getElem?_eq_getElem hk, hkv]⟩
  refine eq_singleton_of_nodup_mem _ _ ((List.nodup_range _).filter _) (fun x => ?_)
  rw [List.mem_filter, List.mem_range]
  constructor
  · rintro ⟨hx, hxv⟩
    have hxv' : seen[x] = v := by
      rw [List.getD_eq_getElem?_getD, List.getElem?_eq_getElem hx] at hxv
      simpa using hxv
    exact (List.Nodup.getElem_inj_iff hnd).mp (by rw [hxv', hkv])
  · rintro rfl
    refine ⟨hk, ?_⟩
    rw [List.getD_eq_getElem?_getD, List.getElem?_eq_getElem hk]
    simpa using hkv

/-- For a `seen` list not containing `v`, the match filter is empty. -/
theorem matchFilter_nil (seen : List (List ℤ)) (v : List ℤ) (hv : v ∉ seen) :
    ((List.range seen.length).filter (fun k => seen.getD k [] = v)) = [] := by
  refine List.filter_eq_nil_iff.mpr (fun k hk => ?_)
  rw [List.mem_range] at hk
  simp only [decide_eq_true_eq]
  intro he
  refine hv ?_
  rw [List.getD_eq_getElem?_getD, List.getElem?_eq_getElem hk] at he
  simp only [Option.getD_some] at he
  exact he ▸ List.getElem_mem hk

/-- One loop step under the pairwise-distinct invariant on the seen tag
vectors: either the assertion fails, or the step succeeds with the
invariant preserved; the multiple-match `ValueError` cannot fire. -/
theorem xhnStep_nodup (p : String) (tags : List ℤ) (n : ℕ)
    (seen : List (List ℤ)) (groups : List (List ℕ)) (group : List ℕ)
    (hnd : seen.Nodup) :
    xhnStep p tags n (seen, groups) group = .error .assertionFailed ∨
    ∃ st', xhnStep p tags n (seen, groups) group = .ok st' ∧ st'.1.Nodup := by
  by_cases hlen : group.length ≠ n
  · exact .inl (by simp only [xhnStep]; rw [if_pos hlen])
  · right
    by_cases hmem : group.map (fun j => tags.getD j 0) ∈ seen
    · obtain ⟨k, hk, _⟩ := matchFilter_singleton seen _ hnd hmem
      refine ⟨(seen, groups.set k (groups.getD k [] ++ group)), ?_, hnd⟩
      simp only [xhnStep]
      rw [if_neg hlen]
      dsimp only
      rw [hk]
    · refine ⟨(seen ++ [group.map (fun j => tags.getD j 0)], groups ++ [group]), ?_, ?_⟩
      · simp only [xhnStep]
        rw [if_neg hlen]
        dsimp only
        rw [matchFilter_nil seen _ hmem]
      · exact List.Nodup.append hnd (List.nodup_singleton _)
          (fun a ha hb => hmem ((List.mem_singleton.mp hb) ▸ ha))

/-- The whole collection loop never raises the multiple-match error when
started from a duplicate-free seen list. -/
theorem xhnLoop_not_multi (p : String) (tags : List ℤ) (n : ℕ)
    (gs : List (List ℕ)) :
    ∀ (st : List (List ℤ) × List (List ℕ)), st.1.Nodup →
      ∀ q, gs.foldlM (xhnStep p tags n) st ≠ .error (.multipleMatches q) := by
  induction gs with
  | nil =>
    intro st _ q
    simp only [List.foldlM_nil]
    intro hc
    exact Except.noConfusion hc
  | cons g rest ih =>
    intro st hnd q
    rw [List.foldlM_cons]
    obtain ⟨st1, st2⟩ := st
    rcases xhnStep_nodup p tags n st1 st2 g hnd with h | ⟨st', hst', hnd'⟩
    · rw [h, show ((Except.error XHnError.assertionFailed :
          Except XHnError (List (List ℤ) × List (List ℕ))) >>= fun st' =>
            rest.foldlM (xhnStep p tags n) st') = .error .assertionFailed from rfl]
      intro hc
      injection hc with hc2
      exact XHnError.noConfusion hc2
    · rw [hst', show ((Except.ok st' :
          Except XHnError (List (List ℤ) × List (List ℕ))) >>= fun st' =>
            rest.foldlM (xhnStep p tags n) st') = rest.foldlM (xhnStep p tags n) st' from rfl]
      exact ih st' hnd' q

theorem exceptMap_not_error {ε α β : Type} (f : α → β) (x : Except ε α) (e : ε)
    (h : x ≠ .error e) : x.map f ≠ .error e := by
  cases x with
  | ok a => intro hc; exact Except.noConfusion hc
  | error a =>
    intro hc
    injection hc with hc2
    exact h (by rw [hc2])

theorem parsePattern_error_inv (gp : String) (e : XHnError)
    (h : parsePattern gp = .error e) : ∃ s0, e = .invalidPattern s0 := by
  rw [parsePattern] at h
  split at h
  · injection h with h2; exact ⟨gp, h2.symm⟩
  · split at h
    · split at h
      · exact Except.noConfusion h
      · injection h with h2; exact ⟨gp, h2.symm⟩
    · injection h with h2; exact ⟨gp, h2.symm⟩

theorem mapM_not_error {ε α β : Type} (f : α → Except ε β) (l : List α) (e : ε)
    (h : ∀ a ∈ l, f a ≠ .error e) : l.mapM f ≠ .error e := by
  induction l with
  | nil =>
    intro hc
    exact Except.noConfusion hc
  | cons a as ih =>
    rw [List.mapM_cons]
    cases hfa : f a with
    | error err =>
      rw [show ((Except.error err : Except ε β) >>= fun b =>
          (as.mapM f) >>= fun bs => pure (b :: bs)) = .error err from rfl]
      intro hc
      injection hc with hc2
      exact h a (List.mem_cons_self a as) (by rw [hfa, hc2])
    | ok b =>
      rw [show ((Except.ok b : Except ε β) >>= fun b =>
          (as.mapM f) >>= fun bs => pure (b :: bs))
        = ((as.mapM f) >>= fun bs => pure (b :: bs)) from rfl]
      cases hmm : as.mapM f with
      | error err =>
        rw [show (((Except.error err : Except ε (List β))) >>= fun bs =>
            pure (b :: bs)) = .error err from rfl]
        intro hc
        injection hc with hc2
        exact ih (fun x hx => h x (List.mem_cons_of_mem a hx)) (by rw [hmm, hc2])
      | ok bs =>
        intro hc
        exact Except.noConfusion hc

/-- Claim C3 (amended): a candidate XHn group whose hydrogen tag vector
matches exactly one previously seen group's tag vector is silently merged
into that group (`groups[match[0]] += group`), regardless of membership;
the ambiguous-grouping `ValueError('Found multiple matches ...')` would
require the tag vector to match two or more previously seen vectors,
which cannot happen because seen tag vectors are recorded only when new
and hence stay pairwise distinct — so `find_XHn_groups` never raises it
on any input. -/
theorem find_XHn_groups_merge_never_ambiguous :
    (∀ (symbs : List String) (bmat : List (List Bool)) (tags : List ℤ)
       (ps q : String),
      find_XHn_groups symbs bmat tags ps ≠ .error (.multipleMatches q)) ∧
    (∀ (p : String) (tags : List ℤ) (n : ℕ) (seen : List (List ℤ))
       (groups : List (List ℕ)) (group : List ℕ),
      seen.Nodup → group.length = n →
      group.map (fun j => tags.getD j 0) ∈ seen →
      ∃ k, seen[k]? = some (group.map (fun j => tags.getD j 0)) ∧
        xhnStep p tags n (seen, groups) group
          = .ok (seen, groups.set k (groups.getD k [] ++ group))) := by
  constructor
  · intro symbs bmat tags ps q
    refine mapM_not_error _ _ _ (fun gp _ => ?_)
    intro hc2
    cases hp : parsePattern gp with
    | error e =>
      rw [hp, show ((Except.error e : Except XHnError (String × ℕ)).bind fun xn =>
          findGroupsForPattern gp symbs bmat tags xn.1 xn.2) = .error e from rfl] at hc2
      obtain ⟨s0, rfl⟩ := parsePattern_error_inv gp e hp
      injection hc2 with hc3
      exact XHnError.noConfusion hc3
    | ok xn =>
      rw [hp, show ((Except.ok xn : Except XHnError (String × ℕ)).bind fun xn =>
          findGroupsForPattern gp symbs bmat tags xn.1 xn.2)
        = findGroupsForPattern gp symbs bmat tags xn.1 xn.2 from rfl] at hc2
      exact exceptMap_not_error _ _ _
        (xhnLoop_not_multi gp tags xn.2 _ ([], []) List.nodup_nil q) hc2
  · intro p tags n seen groups group hnd hlen hmem
    obtain ⟨k, hk, hkv⟩ := matchFilter_singleton seen _ hnd hmem
    refine ⟨k, hkv, ?_⟩
    simp only [xhnStep]
    rw [if_neg (by simp [hlen])]
    dsimp only
    rw [hk]

/-- Witness for C3 (amended): the collision input of the counterexample
never yields the ambiguous-grouping error, and a concrete single-match
step merges (`seen` `[[0]]`, incoming group `[1]` with tag vector `[0]`). -/
theorem find_XHn_groups_merge_never_ambiguous_witness :
    (find_XHn_groups ["C", "H", "C", "H"]
      [[false, true, false, false], [true, false, false, false],
       [false, false, false, true], [false, false, true, false]]
      [0, 0, 1, 1] "CH1" ≠ .error (.multipleMatches "CH1")) ∧
    ([[0]] : List (List ℤ)).Nodup ∧
    ([1] : List ℕ).length = 1 ∧
    (([1] : List ℕ).map (fun j => ([0, 0] : List ℤ).getD j 0) ∈ ([[0]] : List (List ℤ))) ∧
    (∃ k, ([[0]] : List (List ℤ))[k]? = some (([1] : List ℕ).map (fun j => ([0, 0] : List ℤ).getD j 0)) ∧
      xhnStep "CH1" [0, 0] 1 ([[0]], [[0]]) [1]
        = .ok ([[0]], ([[0]] : List (List ℕ)).set k (([[0]] : List (List ℕ)).getD k [] ++ [1]))) :=
  ⟨find_XHn_groups_merge_never_ambiguous.1 ["C", "H", "C", "H"]
      [[false, true, false, false], [true, false, false, false],
       [false, false, false, true], [false, false, true, false]]
      [0, 0, 1, 1] "CH1" "CH1",
   by decide, rfl, by decide,
   find_XHn_groups_merge_never_ambiguous.2 "CH1" [0, 0] 1 [[0]] [[0]] [1]
     (by decide) rfl (by decide)⟩

/-! ## Claims C1 and C2 -/

theorem getD_map {α β : Type} (l : List α) (f : α → β) (i : ℕ) (h : i < l.length)
    (d : β) (d2 : α) : (l.map f).getD i d = f (l.getD i d2) := by
  rw [List.getD_eq_getElem?_getD, List.getD_eq_getElem?_getD, List.getElem?_map,
    List.getElem?_eq_getElem h]
  rfl

/-- The resolved nuclear spin of atom `i` as `EFGNQR.extract` computes it
(after the isotope-list validity check). -/
def resolvedSpinAt (env : Env) (s : Atoms) (isotopes : List (String × ℕ))
    (il : Option (List (Option ℕ))) (uq : Bool) (i : ℕ) : ℚ :=
  (_get_isotope_data env .I s.symbols isotopes (checkIsotopeList s.symbols il).1 uq).getD i 0

/-- The resolved quadrupole moment of atom `i` as `EFGNQR.extract`
computes it (after the isotope-list validity check). -/
def resolvedQAt (env : Env) (s : Atoms) (isotopes : List (String × ℕ))
    (il : Option (List (Option ℕ))) (uq : Bool) (i : ℕ) : ℚ :=
  (_get_isotope_data env .Q s.symbols isotopes (checkIsotopeList s.symbols il).1 uq).getD i 0

/-- Transition mapping in the words of the claim (spec side, for
comparison): for a nucleus with spin `I > 1/2` whose doubled spin is the
integer `k`, one entry per `m` in `{-I, -I+1, ..., I-1}` restricted to
`m >= 0`, keyed `"m=<m>-><m+1>"`, with frequency
`3*A*(2m+1)*sqrt(1+eta^2/3)` where `A = EFG_TO_CHI*Q*Vzz/(4*I*(2I-1))`;
empty for `I <= 1/2`. -/
def specNQRTransitions (rsqrt : ℚ → ℚ) (chi I Qm Vzz eta : ℚ) (k : ℤ) :
    List (String × ℚ) :=
  if (1 : ℚ)/2 < I then
    (((List.range k.toNat).map (fun (j : ℕ) => -I + (j : ℚ))).filter (fun m => 0 ≤ m)).map
      (fun m => (nqrKey m,
        3 * (chi * Qm * Vzz / (4 * I * (2 * I - 1))) * (2 * m + 1)
          * rsqrt (1 + eta ^ 2 / 3)))
  else []

/-- The `m` enumeration of the source,
`[m for m in _frange(-I, I+1, 1) if m >= 0.0][:-1]`, coincides with the
claim's `{-I, ..., I-1} ∩ [0, ∞)` for any non-negative spin whose double
is an integer: the source's range runs one step further (up to `I`) and
the trailing `I`, always non-negative, is removed by the `[:-1]`. -/
theorem frange_filter_dropLast (I : ℚ) (k : ℤ) (hk : 2 * I = (k : ℚ)) (hI : 0 ≤ I) :
    ((_frange (-I) (I + 1)).filter (fun m => 0 ≤ m)).dropLast
      = ((List.range k.toNat).map (fun (j : ℕ) => -I + (j : ℚ))).filter (fun m => 0 ≤ m) := by
  have hk0 : 0 ≤ k := by
    have h2 : (0 : ℚ) ≤ (k : ℚ) := by rw [← hk]; linarith
    exact_mod_cast h2
  have hceil : ⌈(I + 1) - (-I)⌉ = k + 1 := by
    have h3 : (I + 1) - (-I) = ((k + 1 : ℤ) : ℚ) := by push_cast; linarith
    rw [h3, Int.ceil_intCast]
  have hcast : ((k.toNat : ℚ)) = (k : ℚ) := by exact_mod_cast Int.toNat_of_nonneg hk0
  have hlast : -I + (k.toNat : ℚ) = I := by rw [hcast]; linarith
  rw [_frange, hceil, show (k + 1).toNat = k.toNat + 1 from by omega, List.range_succ,
    List.map_append, List.filter_append, List.map_singleton, hlast,
    show List.filter (fun m => decide (0 ≤ m)) [I] = [I] from by simp [List.filter, hI],
    List.dropLast_concat]

/-- `EFGNQR.extract` with `force_recalc=False` on a structure whose
Haeberlen-sorted eigenvalue cache is present: no re-diagonalisation
happens and the result is the warning list and transition table of the
body on the unchanged structure. -/
theorem EFGNQR_extract_cached (env : Env) (uq : Bool)
    (isotopes : List (String × ℕ)) (il : Option (List (Option ℕ)))
    (s : Atoms) (efgs : List Mat3) (hs : List Vec3)
    (hefg : s.efg = some efgs) (hc : s.efg_diagonal_evals_hsort = some hs) :
    EFGNQR.extract env false uq isotopes il s
      = .ok (s, (EFGNQR.body env uq isotopes il s).1,
             (EFGNQR.body env uq isotopes il s).2) := by
  rw [EFGNQR.extract, _has_efg_check]
  rw [if_neg (by rw [hefg]; simp)]
  rw [if_neg (by rw [hc]; simp)]

/-- The per-atom entry of the `EFGNQR` transition table, in terms of the
cached Haeberlen-sorted triples. -/
theorem EFGNQR_body_entry (env : Env) (uq : Bool)
    (isotopes : List (String × ℕ)) (il : Option (List (Option ℕ)))
    (s : Atoms) (hs : List Vec3)
    (hc : s.efg_diagonal_evals_hsort = some hs)
    (hlen : hs.length = s.symbols.length)
    (i : ℕ) (hi : i < s.symbols.length) :
    (EFGNQR.body env uq isotopes il s).2[i]?
      = some (if (1 : ℚ)/2 < resolvedSpinAt env s isotopes il uq i then
          (((_frange (-(resolvedSpinAt env s isotopes il uq i))
                (resolvedSpinAt env s isotopes il uq i + 1)).filter
              (fun m => 0 ≤ m)).dropLast).map
            (fun m => (nqrKey m,
              3 * (env.efgToChi * (hs.getD i 0).2.2 * resolvedQAt env s isotopes il uq i
                    / (4 * resolvedSpinAt env s isotopes il uq i
                        * (2 * resolvedSpinAt env s isotopes il uq i - 1)))
                * (2 * m + 1)
                * env.rsqrt (1 + (_asymmetry (hs.getD i 0)) ^ 2 / 3)))
        else []) := by
  have hhs : s.hsort = hs := by rw [Atoms.hsort, hc]; rfl
  have hihs : i < hs.length := hlen ▸ hi
  simp only [EFGNQR.body, EFGVzz.values, EFGAsymmetry.values, hhs]
  rw [List.getElem?_map, List.getElem?_range hi]
  simp only [Option.map_some']
  rw [getD_map hs _ i hihs 0 0, getD_map hs _ i hihs 0 0]
  rfl

/-- Claim C1: for every atom whose resolved isotope has nuclear spin
`I > 1/2` (with `2I` the integer `k`), `EFGNQR.extract` returns for that
atom one entry per `m` in `{-I, -I+1, ..., I-1}` with `m >= 0`, keyed
`"m=<m>-><m+1>"`, with frequency `3*A*(2m+1)*sqrt(1+eta^2/3)` where
`A = EFG_TO_CHI*Q*Vzz/(4*I*(2I-1))`; for every atom with `I <= 1/2` the
returned mapping is empty (the `if` inside `specNQRTransitions`). -/
theorem EFGNQR_extract_transitions (env : Env) (uq : Bool)
    (isotopes : List (String × ℕ)) (il : Option (List (Option ℕ)))
    (s : Atoms) (efgs : List Mat3) (hs : List Vec3)
    (hefg : s.efg = some efgs) (hc : s.efg_diagonal_evals_hsort = some hs)
    (hlen : hs.length = s.symbols.length) (i : ℕ) (hi : i < s.symbols.length)
    (k : ℤ) (hk : 2 * resolvedSpinAt env s isotopes il uq i = (k : ℚ)) :
    ∃ w nqr, EFGNQR.extract env false uq isotopes il s = .ok (s, w, nqr) ∧
      nqr[i]? = some (specNQRTransitions env.rsqrt env.efgToChi
        (resolvedSpinAt env s isotopes il uq i)
        (resolvedQAt env s isotopes il uq i)
        (hs.getD i 0).2.2 (_asymmetry (hs.getD i 0)) k) := by
  refine ⟨_, _, EFGNQR_extract_cached env uq isotopes il s efgs hs hefg hc, ?_⟩
  rw [EFGNQR_body_entry env uq isotopes il s hs hc hlen i hi, specNQRTransitions]
  by_cases hI : (1 : ℚ)/2 < resolvedSpinAt env s isotopes il uq i
  · rw [if_pos hI, if_pos hI, frange_filter_dropLast _ k hk (by linarith)]
    congr 1
    refine List.map_congr_left (fun m _ => ?_)
    simp only [Prod.mk.injEq]
    exact ⟨trivial, by ring⟩
  · rw [if_neg hI, if_neg hI]

/-- Witness for C1 at the one-atom spin-3/2 structure `xAtoms`. -/
theorem EFGNQR_extract_transitions_witness :
    xAtoms.efg = some [((((0, 0, 0), (0, 0, 0), (0, 0, 6)) : Mat3))] ∧
    xAtoms.efg_diagonal_evals_hsort = some [((0, 0, 6) : Vec3)] ∧
    ([((0, 0, 6) : Vec3)]).length = xAtoms.symbols.length ∧
    (0 : ℕ) < xAtoms.symbols.length ∧
    2 * resolvedSpinAt cEnv xAtoms [] none false 0 = ((3 : ℤ) : ℚ) ∧
    (∃ w nqr, EFGNQR.extract cEnv false false [] none xAtoms = .ok (xAtoms, w, nqr) ∧
      nqr[0]? = some (specNQRTransitions cEnv.rsqrt cEnv.efgToChi
        (resolvedSpinAt cEnv xAtoms [] none false 0)
        (resolvedQAt cEnv xAtoms [] none false 0)
        (([((0, 0, 6) : Vec3)]).getD 0 0).2.2
        (_asymmetry (([((0, 0, 6) : Vec3)]).getD 0 0)) 3)) := by
  have hspin : 2 * resolvedSpinAt cEnv xAtoms [] none false 0 = ((3 : ℤ) : ℚ) := by
    norm_num [resolvedSpinAt, _get_isotope_data, _get_isotope_list, resolveIsotope,
      checkIsotopeList, cEnv, xAtoms, List.zipWith]
  exact ⟨rfl, rfl, rfl, by decide, hspin,
    EFGNQR_extract_transitions cEnv false [] none xAtoms _ _ rfl rfl rfl 0
      (by decide) 3 hspin⟩

/-- Python renders the spin-3/2 transition key as `m=0.5->1.5`. -/
theorem nqrKey_half : nqrKey (1/2) = "m=0.5->1.5" := by
  rw [nqrKey, pyHalfStr, pyHalfStr]
  norm_num
  rfl

/-- The `m` enumeration for spin `3/2`:
`[m for m in _frange(-1.5, 2.5, 1) if m >= 0.0][:-1] == [0.5]`. -/
theorem frange_spin32 :
    ((_frange (-(3/2 : ℚ)) ((3/2 : ℚ) + 1)).filter (fun m => 0 ≤ m)).dropLast
      = [(1/2 : ℚ)] := by
  rw [_frange, show ⌈((3/2 : ℚ) + 1) - -(3/2 : ℚ)⌉ = (4 : ℤ) from by
    rw [show ((3/2 : ℚ) + 1) - -(3/2 : ℚ) = ((4 : ℤ) : ℚ) from by norm_num,
      Int.ceil_intCast]]
  norm_num [List.range, List.range.loop, List.filter]

/-- Shared computation for claim C2: on an atom whose resolved spin is
`3/2`, with resolved quadrupole moment `Qv`, cached Haeberlen Vzz `V` and
asymmetry `0` (and a square root oracle fixing `sqrt 1 = 1`, as the float
`np.sqrt(1.0) == 1.0` does), the `EFGNQR` entry of that atom is the
single transition keyed `m=0.5->1.5` with frequency `3*A*2`,
`A = EFG_TO_CHI*Qv*V/(4*(3/2)*2)`. -/
theorem EFGNQR_spin32_entry (env : Env) (uq : Bool)
    (isotopes : List (String × ℕ)) (il : Option (List (Option ℕ)))
    (s : Atoms) (efgs : List Mat3) (hs : List Vec3)
    (hefg : s.efg = some efgs) (hc : s.efg_diagonal_evals_hsort = some hs)
    (hlen : hs.length = s.symbols.length) (i : ℕ) (hi : i < s.symbols.length)
    (hspin : resolvedSpinAt env s isotopes il uq i = 3/2)
    (Qv V : ℚ) (hQ : resolvedQAt env s isotopes il uq i = Qv)
    (hV : (hs.getD i 0).2.2 = V)
    (heta : _asymmetry (hs.getD i 0) = 0)
    (hsq : env.rsqrt 1 = 1) :
    ∃ w nqr, EFGNQR.extract env false uq isotopes il s = .ok (s, w, nqr) ∧
      nqr[i]? = some [("m=0.5->1.5",
        3 * (env.efgToChi * Qv * V / (4 * (3/2) * 2)) * 2)] := by
  refine ⟨_, _, EFGNQR_extract_cached env uq isotopes il s efgs hs hefg hc, ?_⟩
  rw [EFGNQR_body_entry env uq isotopes il s hs hc hlen i hi,
    hspin, hQ, hV, heta, if_pos (by norm_num), frange_spin32]
  simp only [List.map_cons, List.map_nil, nqrKey_half]
  rw [show (1 + (0 : ℚ) ^ 2 / 3) = 1 from by norm_num, hsq]
  congr 2
  ring_nf

/-- Counterexample for C2 as stated: for the concrete spin-3/2 atom of
`xAtoms` (`Q = 2`, `Vzz = 6`, `eta = 0`, conversion constant 1), the one
transition returned is keyed `"m=0.5->1.5"` — Python's decimal float
rendering — and not `"m=1/2->3/2"` as the claim says. -/
theorem EFGNQR_spin32_key_counterexample :
    EFGNQR.extract cEnv false false [] none xAtoms
      = .ok (xAtoms, [], [[("m=0.5->1.5", (6 : ℚ))]]) ∧
    "m=0.5->1.5" ≠ "m=1/2->3/2" := by
  constructor
  · obtain ⟨w, nqr, h1, h2⟩ := EFGNQR_spin32_entry cEnv false [] none xAtoms _ _
      rfl rfl rfl 0 (by decide)
      (by norm_num [resolvedSpinAt, _get_isotope_data, _get_isotope_list, resolveIsotope,
        checkIsotopeList, cEnv, xAtoms, List.zipWith])
      2 6
      (by norm_num [resolvedQAt, _get_isotope_data, _get_isotope_list, resolveIsotope,
        checkIsotopeList, cEnv, xAtoms, List.zipWith])
      rfl
      (by norm_num [_asymmetry])
      rfl
    rw [EFGNQR_extract_cached cEnv false [] none xAtoms _ _ rfl rfl] at h1 ⊢
    injection h1 with h1'
    injection h1' with hfst hsnd
    injection hsnd with hw hnqr
    have hb2 : (EFGNQR.body cEnv false [] none xAtoms).2 = [[("m=0.5->1.5", (6 : ℚ))]] := by
      have hone : (EFGNQR.body cEnv false [] none xAtoms).2.length = 1 := rfl
      have h2' : (EFGNQR.body cEnv false [] none xAtoms).2[0]?
          = some [("m=0.5->1.5", (6 : ℚ))] := by
        rw [← hnqr] at h2
        rw [h2]
        norm_num [cEnv]
      cases hl : (EFGNQR.body cEnv false [] none xAtoms).2 with
      | nil => rw [hl] at hone; exact absurd hone (by simp)
      | cons a rest =>
        rw [hl] at hone h2'
        have hrest : rest = [] := by
          have h0 : rest.length = 0 := by simpa using hone
          exact List.length_eq_zero.mp h0
        subst hrest
        simp only [List.getElem?_cons_zero, Option.some.injEq] at h2'
        rw [h2']
    rw [hb2]
    rfl
  · decide

/-- Claim C2 (amended): for an atom whose resolved isotope has spin
`I = 3/2`, quadrupole moment `Q`, asymmetry `eta = 0` and Haeberlen Vzz
`V`, `EFGNQR.extract` returns exactly one transition for that atom, with
frequency `f = 3*A*2` where `A = k*Q*V/(4*1.5*2)` — but keyed
`"m=0.5->1.5"` (Python's decimal rendering of the half-integer `m`),
not `"m=1/2->3/2"` as the claim spells it (the only change the
counterexample forces).  `sqrt 1 = 1` reflects the exact float
`np.sqrt(1.0)`. -/
theorem EFGNQR_spin32_transition (env : Env) (uq : Bool)
    (isotopes : List (String × ℕ)) (il : Option (List (Option ℕ)))
    (s : Atoms) (efgs : List Mat3) (hs : List Vec3)
    (hefg : s.efg = some efgs) (hc : s.efg_diagonal_evals_hsort = some hs)
    (hlen : hs.length = s.symbols.length) (i : ℕ) (hi : i < s.symbols.length)
    (hspin : resolvedSpinAt env s isotopes il uq i = 3/2)
    (Qv V : ℚ) (hQ : resolvedQAt env s isotopes il uq i = Qv)
    (hV : (hs.getD i 0).2.2 = V)
    (heta : _asymmetry (hs.getD i 0) = 0)
    (hsq : env.rsqrt 1 = 1) :
    ∃ w nqr, EFGNQR.extract env false uq isotopes il s = .ok (s, w, nqr) ∧
      nqr[i]? = some [("m=0.5->1.5",
        3 * (env.efgToChi * Qv * V / (4 * (3/2) * 2)) * 2)] :=
  EFGNQR_spin32_entry env uq isotopes il s efgs hs hefg hc hlen i hi hspin
    Qv V hQ hV heta hsq

/-- Witness for C2 (amended) at the concrete spin-3/2 atom of `xAtoms`. -/
theorem EFGNQR_spin32_transition_witness :
    xAtoms.efg = some [((((0, 0, 0), (0, 0, 0), (0, 0, 6)) : Mat3))] ∧
    resolvedSpinAt cEnv xAtoms [] none false 0 = 3/2 ∧
    resolvedQAt cEnv xAtoms [] none false 0 = 2 ∧
    (([((0, 0, 6) : Vec3)]).getD 0 0).2.2 = 6 ∧
    _asymmetry (([((0, 0, 6) : Vec3)]).getD 0 0) = 0 ∧
    cEnv.rsqrt 1 = 1 ∧
    (∃ w nqr, EFGNQR.extract cEnv false false [] none xAtoms = .ok (xAtoms, w, nqr) ∧
      nqr[0]? = some [("m=0.5->1.5",
        3 * (cEnv.efgToChi * 2 * 6 / (4 * (3/2) * 2)) * 2)]) := by
  have hspin : resolvedSpinAt cEnv xAtoms [] none false 0 = 3/2 := by
    norm_num [resolvedSpinAt, _get_isotope_data, _get_isotope_list, resolveIsotope,
      checkIsotopeList, cEnv, xAtoms, List.zipWith]
  have hQ : resolvedQAt cEnv xAtoms [] none false 0 = 2 := by
    norm_num [resolvedQAt, _get_isotope_data, _get_isotope_list, resolveIsotope,
      checkIsotopeList, cEnv, xAtoms, List.zipWith]
  have heta : _asymmetry (([((0, 0, 6) : Vec3)]).getD 0 0) = 0 := by
    norm_num [_asymmetry]
  exact ⟨rfl, hspin, hQ, rfl, heta, rfl,
    EFGNQR_spin32_transition cEnv false [] none xAtoms _ _ rfl rfl rfl 0 (by decide)
      hspin 2 6 hQ rfl heta rfl⟩
